import Mathlib

/-!
Verification development for the PDL release-comparison repository:
a table generator (`postings_employer_tables_rerun.py`, `edu tables rerun.py`)
and a comparison dashboard (`pdl_version_comparison_app.py`).

The Python code is shallowly embedded: pandas columns become `List ℚ`,
a DataFrame becomes a `Frame` (a `field_value` column plus named numeric
columns), nullable values become `Option`, Python object references to
DataFrames become indices into an explicit `Heap`, and warehouse
execution becomes an oracle `String → Except String Unit`.
-/

namespace PDLComparison

/-! ## Version configuration (pdl_version_comparison_app.py, lines 12-13) -/

def BASE_VERSION : String := "v5_OCT25"

def NEW_VERSION : String := "v5_JAN26"

/-- Source `_alias` (line 16-17): `version.lower().replace("-", "_").replace(" ", "_")`,
modelled at the character level (ASCII `str.lower`). -/
def _alias (version : String) : String :=
  String.mk (((version.toList.map Char.toLower).map
    (fun c => if c = Char.ofNat 45 then Char.ofNat 95 else c)).map
    (fun c => if c = Char.ofNat 32 then Char.ofNat 95 else c))

/-- Source `clean_name` (line 22-23):
`s.upper().replace(" ", "_").replace("-", "_").replace("'", "")`,
modelled at the character level (ASCII `str.upper`); the final replace with
the empty string deletes every apostrophe, hence the filter. -/
def clean_name (s : String) : String :=
  String.mk ((((s.toList.map Char.toUpper).map
    (fun c => if c = Char.ofNat 32 then Char.ofNat 95 else c)).map
    (fun c => if c = Char.ofNat 45 then Char.ofNat 95 else c)).filter
    (fun c => c ≠ Char.ofNat 39))

def BASE_A : String := _alias BASE_VERSION

def NEW_A : String := _alias NEW_VERSION

/-! ## Table name helpers (lines 37-41) -/

def make_comparison_table_name (topic field country : String) : String :=
  "COMP_" ++ clean_name topic ++ "_" ++ clean_name field ++ "_" ++ clean_name country

def make_kpi_table_name (topic field country : String) : String :=
  "KPI_" ++ clean_name topic ++ "_" ++ clean_name field ++ "_" ++ clean_name country

def NULL_LABEL : String := "<NULL>"

/-! ## Derived pct_change column (main, lines 491-493)

`df["pct_change"] = ((df[cnt_new] - df[cnt_base]) / df[cnt_base]).where(df[cnt_base] != 0)`:
per row, the ratio is kept where the base count is non-zero and replaced by
null (NaN) where it is zero. -/

/-- Per-row body of the derived pct_change expression: the ratio where the
base count is non-zero, null otherwise. -/
def compute_pct_change (base_count new_count : ℚ) : Option ℚ :=
  if base_count ≠ 0 then some ((new_count - base_count) / base_count) else none

/-- Row of a comparison table as read by the dashboard: a field value
(nullable) and one count per version. -/
structure CompRow where
  field_value : Option String
  cnt_base : ℚ
  cnt_new : ℚ
deriving DecidableEq

/-- Derived pct_change of one comparison row (main, lines 491-493). -/
def derive_pct_change (r : CompRow) : Option ℚ :=
  compute_pct_change r.cnt_base r.cnt_new

/-! ## Sorting (pandas `sort_values(..., ascending=False)`)

Modelled as an insertion sort on the ranking key, descending. The
properties proved below (sortedness with respect to the key, membership,
length) hold for any correct sorting algorithm and do not depend on the
order of tied rows. -/

def insert_desc {α : Type} (key : α → ℚ) (x : α) : List α → List α
  | [] => [x]
  | y :: ys => if key y < key x then x :: y :: ys else y :: insert_desc key x ys

def sort_desc {α : Type} (key : α → ℚ) : List α → List α
  | [] => []
  | x :: xs => insert_desc key x (sort_desc key xs)

/-! ## Largest-change ranking (main, lines 506-511)

`df.dropna(subset=["pct_change"]).assign(abs_change=lambda d: d["pct_change"].abs())
   .sort_values("abs_change", ascending=False).head(n)` with n = 20 in the source.
A kept row is paired with its (defined) pct_change value. -/

def rank_by_abs_change (rows : List CompRow) (n : Nat) : List (CompRow × ℚ) :=
  ((sort_desc (fun x => |x.2|))
    (rows.filterMap (fun r => (derive_pct_change r).map (fun p => (r, p))))).take n

/-! ## Percentage columns (chart_percentages, lines 260-264)

`totals = {col: df[col].sum()}` then, per column,
`df_pct[pct] = df[col] / totals[col] if totals[col] else 0`: elementwise
division by the column total when it is non-zero, otherwise the scalar 0
broadcast over every row. -/

def pct_column (col : List ℚ) : List ℚ :=
  if col.sum ≠ 0 then col.map (fun c => c / col.sum) else col.map (fun _ => 0)

/-- Percentage derivation applied to each version count column in turn. -/
def compute_percentages (cols : List (List ℚ)) : List (List ℚ) :=
  cols.map pct_column

/-! ## Frame model

A pandas DataFrame as the dashboard uses it: a `field_value` column of
nullable strings plus named numeric columns of equal length. -/

structure Frame where
  field_value : List (Option String)
  cols : List (String × List ℚ)
deriving DecidableEq

def getCol (fr : Frame) (c : String) : List ℚ :=
  ((fr.cols.find? (fun p => p.1 = c)).map (fun p => p.2)).getD []

def has_col (fr : Frame) (c : String) : Bool :=
  (fr.cols.find? (fun p => p.1 = c)).isSome

/-- Source `_prepare` (lines 187-190) on a scalar: null becomes the literal
placeholder `NULL_LABEL`, anything else its string form. -/
def _prepare : Option String → String
  | none => NULL_LABEL
  | some s => s

/-- Source `_prepare` on a Series: `val.fillna(NULL_LABEL).astype(str)`. -/
def prepare_col (fv : List (Option String)) : List String :=
  fv.map _prepare

/-- Effect of `df_disp["field_value"] = _prepare(df_disp["field_value"])`
(line 194): the field_value column is overwritten with the prepared values. -/
def prepare_frame (fr : Frame) : Frame :=
  { fr with field_value := fr.field_value.map (fun v => some (_prepare v)) }

/-- Long-form row produced by `df.melt(id_vars="field_value", value_vars=...,
var_name="version", value_name=...)`: the category value, the originating
column name as version label, and the metric value. -/
structure LongRow where
  field_value : String
  version : String
  value : ℚ
deriving DecidableEq

/-- Pandas `melt` (lines 195-200): for each value column in order, one output
row per input row, carrying that row's field value, the column name and the
column's value at that row. -/
def melt_raw (fr : Frame) (value_cols : List String) : List LongRow :=
  value_cols.flatMap (fun c =>
    ((fr.field_value.map _prepare).zip (getCol fr c)).map
      (fun p => ⟨p.1, c, p.2⟩))

/-- Source `_melt` (lines 192-200) as a pure function of the frame value:
copy, prepare the field_value column, melt. -/
def melt_frame (fr : Frame) (value_cols : List String) : List LongRow :=
  melt_raw (prepare_frame fr) value_cols

/-! ## Heap model for DataFrame references

Python DataFrames are mutable objects; `df.copy()` allocates a fresh one and
in-place column assignment mutates the referenced object. A heap is a list
of frames, a reference an index into it. -/

abbrev Heap := List Frame

def read (h : Heap) (i : Nat) : Frame :=
  h.getD i ⟨[], []⟩

def alloc (h : Heap) (fr : Frame) : Heap × Nat :=
  (h ++ [fr], h.length)

def write (h : Heap) (i : Nat) (fr : Frame) : Heap :=
  h.set i fr

/-- Source `_melt` (lines 192-200) over the heap: `df_disp = df.copy()`
allocates, `df_disp["field_value"] = _prepare(...)` writes the copy, and the
melted long frame is returned. -/
def melt_prog (h : Heap) (df : Nat) (value_cols : List String) :
    Heap × List LongRow :=
  let a := alloc h (read h df)
  let h1 := a.1
  let d := a.2
  let h2 := write h1 d (prepare_frame (read h1 d))
  (h2, melt_raw (read h2 d) value_cols)

/-- Value columns chosen by chart_percentages / chart_counts
(lines 253-258): the two version count columns, plus `cnt_ipeds` when the
frame has that column. -/
def version_value_cols (fr : Frame) : List String :=
  let base := ["cnt_" ++ BASE_A, "cnt_" ++ NEW_A]
  if has_col fr "cnt_ipeds" then base ++ ["cnt_ipeds"] else base

/-- Column name `f"pct_{col.replace('cnt_', '')}"` (line 263); count column
names in this app carry the `cnt_` marker exactly once, at the start. -/
def pct_name (col : String) : String :=
  "pct_" ++ (if col.startsWith "cnt_" then col.drop 4 else col)

/-- One iteration of the loop at lines 262-264: a new percentage column,
computed from the original frame's count column, appended to the copy. -/
def add_pct_col (dst src : Frame) (col : String) : Frame :=
  { dst with cols := dst.cols ++ [(pct_name col, pct_column (getCol src col))] }

/-- Source `chart_percentages` (lines 252-296) over the heap: `df_pct =
df.copy()`, the percentage columns are written onto the copy (reading the
original's counts), and `_melt(df_pct, pct_cols, "pct")` produces the long
frame handed to the chart. Chart encoding and version-label renaming of the
local long frame are presentation-only and not modelled. -/
def chart_percentages_prog (h : Heap) (df : Nat) : Heap × List LongRow :=
  let value_cols := version_value_cols (read h df)
  let a := alloc h (read h df)
  let h1 := a.1
  let dp := a.2
  let h2 := write h1 dp
    (value_cols.foldl (fun fr col => add_pct_col fr (read h df) col) (read h1 dp))
  melt_prog h2 dp (value_cols.map pct_name)

/-- Source `chart_counts` (lines 213-250) over the heap: melts the input
frame directly (the copy happens inside `_melt`). -/
def chart_counts_prog (h : Heap) (df : Nat) : Heap × List LongRow :=
  melt_prog h df (version_value_cols (read h df))

/-- Source `chart_pct_change` (lines 298-327) over the heap: `df_disp =
df.copy()`, the prepared field_value is written onto the copy, and the copy
is what the chart renders. -/
def chart_pct_change_prog (h : Heap) (df : Nat) : Heap × Frame :=
  let a := alloc h (read h df)
  let h1 := a.1
  let d := a.2
  let h2 := write h1 d (prepare_frame (read h1 d))
  (h2, read h2 d)

/-! ## Generator batch run (postings_employer_tables_rerun.py, lines 27-72)

The warehouse is an oracle `exec : String → Except String Unit` taking the
full DDL statement. The SQL builders and table namers live in
`postings_release_temp_tables.py`, which is imported but not part of this
repository's sources. -/

/-- Modelled from the spec: `make_kpi_name` of postings_release_temp_tables.py
(imported, not in src); naming convention `KPI_<TOPIC>_<FIELD>`, upper-cased
and normalized. -/
def make_kpi_name (topic field : String) : String :=
  "KPI_" ++ clean_name topic ++ "_" ++ clean_name field

/-- Modelled from the spec: `make_comp_name` of
postings_release_temp_tables.py; naming convention `COMP_<TOPIC>_<FIELD>`. -/
def make_comp_name (topic field : String) : String :=
  "COMP_" ++ clean_name topic ++ "_" ++ clean_name field

/-- Modelled from the spec: `make_comp_lc_name` of
postings_release_temp_tables.py; naming convention `COMPLC_<TOPIC>_<FIELD>`. -/
def make_comp_lc_name (topic field : String) : String :=
  "COMPLC_" ++ clean_name topic ++ "_" ++ clean_name field

/-- Console record of one table attempt: `✓ name` on success, `✗ name: err`
on failure (lines 40, 43, 53, 56, 66, 69). -/
inductive LogEntry where
  | ok (table : String) : LogEntry
  | err (table : String) (msg : String) : LogEntry
deriving DecidableEq

def LogEntry.table : LogEntry → String
  | .ok t => t
  | .err t _ => t

def LogEntry.isOk : LogEntry → Bool
  | .ok _ => true
  | .err _ _ => false

/-- One `try: execute_ddl(...); total += 1 except ...` block: the CREATE OR
REPLACE statement is submitted, a log entry is recorded, and the success
increment is returned; the exception never escapes the block. -/
def attempt_table (exec : String → Except String Unit) (name sql : String) :
    LogEntry × Nat :=
  match exec ("CREATE OR REPLACE TABLE " ++ name ++ " AS\n" ++ sql) with
  | .ok _ => (.ok name, 1)
  | .error e => (.err name e, 0)

/-- Loop body for one field (lines 27-69): the KPI, COMP and COMP-LC tables
are each attempted in turn. The generated SQL texts come from the imported
builder module and are passed in as functions of the field name. -/
def run_field (exec : String → Except String Unit)
    (kpiSql compSql compLcSql : String → String) (field : String) :
    List LogEntry × Nat :=
  let k := attempt_table exec (make_kpi_name "employers" field) (kpiSql field)
  let c := attempt_table exec (make_comp_name "employers" field) (compSql field)
  let l := attempt_table exec (make_comp_lc_name "employers" field) (compLcSql field)
  ([k.1, c.1, l.1], k.2 + c.2 + l.2)

/-- Source `main` of postings_employer_tables_rerun.py: every configured
field is processed in order, the running `total` accumulates the successes,
and the closing message reports the total (line 72). -/
def employer_batch (exec : String → Except String Unit)
    (kpiSql compSql compLcSql : String → String) (fields : List String) :
    List LogEntry × Nat × String :=
  let run := fields.foldl
    (fun acc field =>
      let r := run_field exec kpiSql compSql compLcSql field
      (acc.1 ++ r.1, acc.2 + r.2))
    ([], 0)
  (run.1, run.2, "Done — created " ++ toString run.2 ++ " employer tables.")

/-! ## Helper lemmas -/

theorem mem_insert_desc {α : Type} (key : α → ℚ) (x z : α) (l : List α) :
    z ∈ insert_desc key x l ↔ z = x ∨ z ∈ l := by
  induction l with
  | nil => simp [insert_desc]
  | cons y ys ih =>
    by_cases h : key y < key x
    · simp [insert_desc, h]
    · simp [insert_desc, h, ih]
      tauto

theorem sorted_insert_desc {α : Type} (key : α → ℚ) (x : α) (l : List α)
    (hl : List.Sorted (fun a b => key b ≤ key a) l) :
    List.Sorted (fun a b => key b ≤ key a) (insert_desc key x l) := by
  induction l with
  | nil => simp [insert_desc]
  | cons y ys ih =>
    rw [List.sorted_cons] at hl
    by_cases h : key y < key x
    · rw [insert_desc]
      simp only [h, if_pos]
      rw [List.sorted_cons]
      refine ⟨?_, by rw [List.sorted_cons]; exact hl⟩
      intro b hb
      rcases List.mem_cons.mp hb with hb | hb
      · subst hb
        exact le_of_lt h
      · exact le_trans (hl.1 b hb) (le_of_lt h)
    · rw [insert_desc]
      simp only [h, if_neg, not_false_iff]
      rw [List.sorted_cons]
      refine ⟨?_, ih hl.2⟩
      intro b hb
      rw [mem_insert_desc] at hb
      rcases hb with hb | hb
      · exact hb ▸ le_of_not_lt h
      · exact hl.1 b hb

theorem mem_sort_desc {α : Type} (key : α → ℚ) (z : α) (l : List α) :
    z ∈ sort_desc key l ↔ z ∈ l := by
  induction l with
  | nil => simp [sort_desc]
  | cons y ys ih => simp [sort_desc, mem_insert_desc, ih]

theorem sorted_sort_desc {α : Type} (key : α → ℚ) (l : List α) :
    List.Sorted (fun a b => key b ≤ key a) (sort_desc key l) := by
  induction l with
  | nil => simp [sort_desc]
  | cons y ys ih => exact sorted_insert_desc key y _ ih

theorem getD_map_comm {α β : Type} (f : α → β) (l : List α) (i : Nat) (d : α) :
    (l.map f).getD i (f d) = f (l.getD i d) := by
  induction l generalizing i with
  | nil => simp
  | cons x xs ih =>
    cases i with
    | zero => simp
    | succ j =>
      simp only [List.map_cons, List.getD_cons_succ]
      exact ih j

theorem sum_map_div (l : List ℚ) (t : ℚ) :
    (l.map (fun c => c / t)).sum = l.sum / t := by
  induction l with
  | nil => simp
  | cons x xs ih => simp [ih, add_div]

/-- Character predicate for identifier hygiene: not a space, not a hyphen,
not an apostrophe. -/
def no_bad_char (c : Char) : Bool :=
  c ≠ Char.ofNat 32 && c ≠ Char.ofNat 45 && c ≠ Char.ofNat 39

theorem clean_name_no_bad_char (s : String) :
    ((clean_name s).toList.all no_bad_char) = true := by
  rw [List.all_eq_true]
  intro c hc
  have hc' : c ∈ ((((s.toList.map Char.toUpper).map
      (fun c => if c = Char.ofNat 32 then Char.ofNat 95 else c)).map
      (fun c => if c = Char.ofNat 45 then Char.ofNat 95 else c)).filter
      (fun c => c ≠ Char.ofNat 39)) := hc
  rw [List.mem_filter] at hc'
  obtain ⟨h3, hap⟩ := hc'
  rw [List.mem_map] at h3
  obtain ⟨x, hx, hfx⟩ := h3
  rw [List.mem_map] at hx
  obtain ⟨y, _, hfy⟩ := hx
  have hap' : c ≠ Char.ofNat 39 := by simpa using hap
  subst hfx
  subst hfy
  unfold no_bad_char
  by_cases h32 : y = Char.ofNat 32 <;> by_cases h45 : (if y = Char.ofNat 32
      then Char.ofNat 95 else y) = Char.ofNat 45 <;>
    simp_all

theorem append_all_no_bad (a b : String) (ha : a.toList.all no_bad_char = true)
    (hb : b.toList.all no_bad_char = true) :
    ((a ++ b).toList.all no_bad_char) = true := by
  rw [List.all_eq_true] at *
  intro c hc
  have : c ∈ a.toList ++ b.toList := by
    simpa [String.toList, String.data_append] using hc
  rcases List.mem_append.mp this with h | h
  · exact ha c h
  · exact hb c h

/-! Heap access lemmas. -/

theorem read_append_lt (h : Heap) (fr : Frame) (i : Nat) (hi : i < h.length) :
    read (h ++ [fr]) i = read h i := by
  unfold read
  rw [List.getD_eq_getElem?_getD, List.getD_eq_getElem?_getD,
    List.getElem?_append, if_pos hi]

theorem read_append_self (h : Heap) (fr : Frame) :
    read (h ++ [fr]) h.length = fr := by
  unfold read
  rw [List.getD_eq_getElem?_getD, List.getElem?_append_right (le_refl _)]
  simp

theorem read_set_ne (h : Heap) (i j : Nat) (fr : Frame) (hne : j ≠ i) :
    read (write h j fr) i = read h i := by
  unfold read write
  rw [List.getD_eq_getElem?_getD, List.getD_eq_getElem?_getD,
    List.getElem?_set_ne hne]

theorem read_set_self (h : Heap) (j : Nat) (fr : Frame) (hj : j < h.length) :
    read (write h j fr) j = fr := by
  unfold read write
  rw [List.getD_eq_getElem?_getD, List.getElem?_set_self' ]
  simp [hj]

/-! State-to-value lemmas for the chart programs: the prior heap is
preserved below the fresh reference, and the returned long frame is a pure
function of the frame the input reference held. -/

theorem melt_prog_spec (h : Heap) (df : Nat) (vcols : List String) :
    (∀ i, i < h.length → read (melt_prog h df vcols).1 i = read h i) ∧
    (melt_prog h df vcols).2 = melt_frame (read h df) vcols := by
  constructor
  · intro i hi
    show read (write (h ++ [read h df]) h.length
      (prepare_frame (read (h ++ [read h df]) h.length))) i = read h i
    rw [read_set_ne _ _ _ _ (Nat.ne_of_gt hi), read_append_lt _ _ _ hi]
  · show melt_raw (read (write (h ++ [read h df]) h.length
      (prepare_frame (read (h ++ [read h df]) h.length))) h.length) vcols = _
    rw [read_append_self, read_set_self _ _ _ (by simp)]
    rfl

/-- Pure value of chart_percentages: the copy of the input frame augmented
with one percentage column per version count column, then melted. -/
def chart_percentages_frame (fr : Frame) : List LongRow :=
  let vcols := version_value_cols fr
  melt_frame (vcols.foldl (fun g col => add_pct_col g fr col) fr) (vcols.map pct_name)

theorem chart_percentages_prog_spec (h : Heap) (df : Nat) :
    (∀ i, i < h.length → read (chart_percentages_prog h df).1 i = read h i) ∧
    (chart_percentages_prog h df).2 = chart_percentages_frame (read h df) := by
  have hkey : ∀ g : Frame,
      chart_percentages_prog h df =
        melt_prog (write (h ++ [read h df]) h.length g) h.length
          ((version_value_cols (read h df)).map pct_name) →
      (∀ i, i < h.length → read (chart_percentages_prog h df).1 i = read h i) ∧
      (chart_percentages_prog h df).2 =
        melt_frame g ((version_value_cols (read h df)).map pct_name) := by
    intro g hg
    have hlen : (write (h ++ [read h df]) h.length g).length = h.length + 1 := by
      simp [write]
    have hspec := melt_prog_spec (write (h ++ [read h df]) h.length g) h.length
      ((version_value_cols (read h df)).map pct_name)
    constructor
    · intro i hi
      rw [hg, hspec.1 i (by omega), read_set_ne _ _ _ _ (Nat.ne_of_gt hi),
        read_append_lt _ _ _ hi]
    · rw [hg, hspec.2, read_set_self _ _ _ (by simp)]
  have hform : chart_percentages_prog h df =
      melt_prog (write (h ++ [read h df]) h.length
        ((version_value_cols (read h df)).foldl
          (fun fr col => add_pct_col fr (read h df) col)
          (read (h ++ [read h df]) h.length)))
        h.length ((version_value_cols (read h df)).map pct_name) := rfl
  have := hkey _ hform
  refine ⟨this.1, ?_⟩
  rw [this.2]
  unfold chart_percentages_frame
  rw [read_append_self]

/-- Pure value of chart_counts: the input frame melted over its version
count columns. -/
def chart_counts_frame (fr : Frame) : List LongRow :=
  melt_frame fr (version_value_cols fr)

theorem chart_counts_prog_spec (h : Heap) (df : Nat) :
    (∀ i, i < h.length → read (chart_counts_prog h df).1 i = read h i) ∧
    (chart_counts_prog h df).2 = chart_counts_frame (read h df) := by
  have hspec := melt_prog_spec h df (version_value_cols (read h df))
  exact ⟨hspec.1, hspec.2⟩

theorem chart_pct_change_prog_spec (h : Heap) (df : Nat) :
    (∀ i, i < h.length → read (chart_pct_change_prog h df).1 i = read h i) ∧
    (chart_pct_change_prog h df).2 = prepare_frame (read h df) := by
  constructor
  · intro i hi
    show read (write (h ++ [read h df]) h.length
      (prepare_frame (read (h ++ [read h df]) h.length))) i = read h i
    rw [read_set_ne _ _ _ _ (Nat.ne_of_gt hi), read_append_lt _ _ _ hi]
  · show read (write (h ++ [read h df]) h.length
      (prepare_frame (read (h ++ [read h df]) h.length))) h.length = _
    rw [read_append_self, read_set_self _ _ _ (by simp)]

/-! Melt lemmas. -/

theorem melt_raw_length (fr : Frame) (vcols : List String)
    (H : ∀ c ∈ vcols, (getCol fr c).length = fr.field_value.length) :
    (melt_raw fr vcols).length = fr.field_value.length * vcols.length := by
  induction vcols with
  | nil => simp [melt_raw]
  | cons c cs ih =>
    have hc : (getCol fr c).length = fr.field_value.length :=
      H c (List.mem_cons_self c cs)
    have hcs := ih (fun d hd => H d (List.mem_cons_of_mem c hd))
    simp only [melt_raw, List.flatMap_cons, List.length_append, List.length_map,
      List.length_zip, hc] at *
    rw [hcs]
    simp [Nat.mul_succ, Nat.mul_comm]
    omega

theorem melt_raw_mem (fr : Frame) (vcols : List String) (c : String)
    (hc : c ∈ vcols) (i : Nat) (hi : i < fr.field_value.length)
    (H : (getCol fr c).length = fr.field_value.length) :
    (⟨_prepare (fr.field_value.getD i none), c, (getCol fr c).getD i 0⟩ : LongRow)
      ∈ melt_raw fr vcols := by
  rw [melt_raw, List.mem_flatMap]
  refine ⟨c, hc, ?_⟩
  have hgc : i < (getCol fr c).length := by omega
  have hiz : i < ((fr.field_value.map _prepare).zip (getCol fr c)).length := by
    simp [List.length_zip, H, hi]
  have him : i < (((fr.field_value.map _prepare).zip (getCol fr c)).map
      (fun p => (⟨p.1, c, p.2⟩ : LongRow))).length := by
    simpa using hiz
  have hval : (((fr.field_value.map _prepare).zip (getCol fr c)).map
      (fun p => (⟨p.1, c, p.2⟩ : LongRow))).get ⟨i, him⟩ =
      ⟨_prepare (fr.field_value.getD i none), c, (getCol fr c).getD i 0⟩ := by
    rw [List.get_eq_getElem, List.getElem_map, List.getElem_zip, List.getElem_map]
    have h1 : fr.field_value.getD i none = fr.field_value[i] :=
      List.getD_eq_getElem fr.field_value none hi
    have h2 : (getCol fr c).getD i 0 = (getCol fr c)[i] :=
      List.getD_eq_getElem (getCol fr c) 0 hgc
    rw [h1, h2]
  exact hval ▸ List.get_mem _ _ him

theorem prepare_frame_getCol (fr : Frame) (c : String) :
    getCol (prepare_frame fr) c = getCol fr c := rfl

theorem prepare_frame_fv_length (fr : Frame) :
    (prepare_frame fr).field_value.length = fr.field_value.length := by
  simp [prepare_frame]

theorem melt_frame_length (fr : Frame) (vcols : List String)
    (H : ∀ c ∈ vcols, (getCol fr c).length = fr.field_value.length) :
    (melt_frame fr vcols).length = fr.field_value.length * vcols.length := by
  rw [melt_frame, melt_raw_length (prepare_frame fr) vcols
    (fun c hc => by rw [prepare_frame_getCol, prepare_frame_fv_length]; exact H c hc),
    prepare_frame_fv_length]

theorem melt_frame_mem (fr : Frame) (vcols : List String) (c : String)
    (hc : c ∈ vcols) (i : Nat) (hi : i < fr.field_value.length)
    (H : (getCol fr c).length = fr.field_value.length) :
    (⟨_prepare (fr.field_value.getD i none), c, (getCol fr c).getD i 0⟩ : LongRow)
      ∈ melt_frame fr vcols := by
  have hi' : i < (prepare_frame fr).field_value.length := by
    rw [prepare_frame_fv_length]; exact hi
  have hmem := melt_raw_mem (prepare_frame fr) vcols c hc i hi'
    (by rw [prepare_frame_getCol, prepare_frame_fv_length]; exact H)
  have hfv : _prepare ((prepare_frame fr).field_value.getD i none) =
      _prepare (fr.field_value.getD i none) := by
    have h1 : (prepare_frame fr).field_value.getD i none =
        (prepare_frame fr).field_value[i] :=
      List.getD_eq_getElem _ none hi'
    have h2 : fr.field_value.getD i none = fr.field_value[i] :=
      List.getD_eq_getElem _ none hi
    rw [h1, h2]
    simp [prepare_frame, _prepare]
  rw [melt_frame]
  rw [prepare_frame_getCol] at hmem
  rw [← hfv]
  exact hmem

/-! Batch lemmas. -/

theorem attempt_table_spec (exec : String → Except String Unit)
    (name sql : String) :
    (attempt_table exec name sql).1.table = name ∧
    (attempt_table exec name sql).2 =
      (if (attempt_table exec name sql).1.isOk then 1 else 0) := by
  cases h : exec ("CREATE OR REPLACE TABLE " ++ name ++ " AS\n" ++ sql) <;>
    simp [attempt_table, h, LogEntry.table, LogEntry.isOk]

theorem run_field_spec (exec : String → Except String Unit)
    (kpiSql compSql compLcSql : String → String) (field : String) :
    (run_field exec kpiSql compSql compLcSql field).1.map LogEntry.table =
      [make_kpi_name "employers" field, make_comp_name "employers" field,
       make_comp_lc_name "employers" field] ∧
    (run_field exec kpiSql compSql compLcSql field).2 =
      ((run_field exec kpiSql compSql compLcSql field).1.filter
        LogEntry.isOk).length := by
  have hk := attempt_table_spec exec (make_kpi_name "employers" field) (kpiSql field)
  have hc := attempt_table_spec exec (make_comp_name "employers" field) (compSql field)
  have hl := attempt_table_spec exec
    (make_comp_lc_name "employers" field) (compLcSql field)
  constructor
  · simp [run_field, hk.1, hc.1, hl.1]
  · rw [run_field]
    simp only [List.filter]
    rw [hk.2, hc.2, hl.2]
    cases (attempt_table exec (make_kpi_name "employers" field) (kpiSql field)).1.isOk <;>
      cases (attempt_table exec (make_comp_name "employers" field) (compSql field)).1.isOk <;>
      cases (attempt_table exec
        (make_comp_lc_name "employers" field) (compLcSql field)).1.isOk <;>
      simp

theorem employer_batch_fold (exec : String → Except String Unit)
    (kpiSql compSql compLcSql : String → String) (fields : List String)
    (acc : List LogEntry × Nat) :
    (fields.foldl
      (fun acc field =>
        let r := run_field exec kpiSql compSql compLcSql field
        (acc.1 ++ r.1, acc.2 + r.2))
      acc) =
    (acc.1 ++ fields.flatMap (fun f => (run_field exec kpiSql compSql compLcSql f).1),
     acc.2 + (fields.map (fun f => (run_field exec kpiSql compSql compLcSql f).2)).sum) := by
  induction fields generalizing acc with
  | nil => simp
  | cons f fs ih =>
    rw [List.foldl_cons, ih]
    simp [List.flatMap_cons, List.append_assoc]
    omega

theorem length_filter_flatMap {α β : Type} (l : List α) (f : α → List β)
    (p : β → Bool) :
    ((l.flatMap f).filter p).length =
      (l.map (fun a => ((f a).filter p).length)).sum := by
  induction l with
  | nil => simp
  | cons x xs ih => simp [List.flatMap_cons, List.filter_append, ih]

/-! ## Claims -/

/-- C1: the derived pct_change of every comparison row is the new count minus
the base count, divided by the base count, and is null exactly when the base
count is zero; compute_pct_change(100, 150) = 0.5 and
compute_pct_change(100, 50) = -0.5. -/
theorem pct_change_spec :
    (∀ r : CompRow, derive_pct_change r =
      (if r.cnt_base = 0 then none
       else some ((r.cnt_new - r.cnt_base) / r.cnt_base))) ∧
    (∀ x : ℚ, compute_pct_change 0 x = none) ∧
    compute_pct_change 100 150 = some (1 / 2) ∧
    compute_pct_change 100 50 = some (-(1 / 2)) := by
  refine ⟨?_, ?_, ?_, ?_⟩
  · intro r
    by_cases h : r.cnt_base = 0 <;>
      simp [derive_pct_change, compute_pct_change, h]
  · intro x
    simp [compute_pct_change]
  · norm_num [compute_pct_change]
  · norm_num [compute_pct_change]

/-- C2: the table-name builders produce the fixed prefix (KPI_ or COMP_)
followed by the normalized upper-cased inputs joined with underscores; the
result never contains a space, hyphen or apostrophe, and the KPI name for
("employers", "BGI Company Name", "United States") is
KPI_EMPLOYERS_BGI_COMPANY_NAME_UNITED_STATES. -/
theorem table_name_normalized :
    (∀ topic field country : String,
      make_kpi_table_name topic field country =
        "KPI_" ++ clean_name topic ++ "_" ++ clean_name field ++ "_" ++
          clean_name country ∧
      make_comparison_table_name topic field country =
        "COMP_" ++ clean_name topic ++ "_" ++ clean_name field ++ "_" ++
          clean_name country ∧
      ((make_kpi_table_name topic field country).toList.all no_bad_char) = true ∧
      ((make_comparison_table_name topic field country).toList.all no_bad_char)
        = true) ∧
    make_kpi_table_name "employers" "BGI Company Name" "United States" =
      "KPI_EMPLOYERS_BGI_COMPANY_NAME_UNITED_STATES" := by
  refine ⟨fun topic field country => ⟨rfl, rfl, ?_, ?_⟩, by decide⟩
  · exact append_all_no_bad _ _
      (append_all_no_bad _ _
        (append_all_no_bad _ _
          (append_all_no_bad _ _
            (append_all_no_bad _ _ (by decide) (clean_name_no_bad_char topic))
            (by decide))
          (clean_name_no_bad_char field))
        (by decide))
      (clean_name_no_bad_char country)
  · exact append_all_no_bad _ _
      (append_all_no_bad _ _
        (append_all_no_bad _ _
          (append_all_no_bad _ _
            (append_all_no_bad _ _ (by decide) (clean_name_no_bad_char topic))
            (by decide))
          (clean_name_no_bad_char field))
        (by decide))
      (clean_name_no_bad_char country)

/-- C3: in a generator batch run every field's three tables are attempted in
order no matter how many executions fail, a failed CREATE OR REPLACE is
recorded with its table name and error message, and the closing message
reports the number of successfully created tables. -/
theorem batch_continues_and_counts :
    ∀ (exec : String → Except String Unit)
      (kpiSql compSql compLcSql : String → String) (fields : List String),
      (employer_batch exec kpiSql compSql compLcSql fields).1.map LogEntry.table =
        fields.flatMap (fun f =>
          [make_kpi_name "employers" f, make_comp_name "employers" f,
           make_comp_lc_name "employers" f]) ∧
      (employer_batch exec kpiSql compSql compLcSql fields).2.1 =
        ((employer_batch exec kpiSql compSql compLcSql fields).1.filter
          LogEntry.isOk).length ∧
      (employer_batch exec kpiSql compSql compLcSql fields).2.2 =
        "Done — created " ++
          toString (((employer_batch exec kpiSql compSql compLcSql fields).1.filter
            LogEntry.isOk).length) ++ " employer tables." ∧
      (∀ name sql msg,
        exec ("CREATE OR REPLACE TABLE " ++ name ++ " AS\n" ++ sql) =
          .error msg →
        attempt_table exec name sql = (.err name msg, 0)) := by
  intro exec kpiSql compSql compLcSql fields
  have hfold := employer_batch_fold exec kpiSql compSql compLcSql fields ([], 0)
  have hlog : (employer_batch exec kpiSql compSql compLcSql fields).1 =
      fields.flatMap (fun f => (run_field exec kpiSql compSql compLcSql f).1) := by
    rw [employer_batch, hfold]
    simp
  have htot : (employer_batch exec kpiSql compSql compLcSql fields).2.1 =
      (fields.map (fun f => (run_field exec kpiSql compSql compLcSql f).2)).sum := by
    rw [employer_batch, hfold]
    simp
  have hcount : (fields.map
        (fun f => (run_field exec kpiSql compSql compLcSql f).2)).sum =
      ((employer_batch exec kpiSql compSql compLcSql fields).1.filter
        LogEntry.isOk).length := by
    rw [hlog, length_filter_flatMap]
    congr 1
    exact List.map_congr_left
      (fun f _ => (run_field_spec exec kpiSql compSql compLcSql f).2)
  refine ⟨?_, ?_, ?_, ?_⟩
  · rw [hlog, List.map_flatMap]
    exact List.flatMap_congr
      (fun f _ => (run_field_spec exec kpiSql compSql compLcSql f).1)
  · rw [htot, hcount]
  · have hmsg : (employer_batch exec kpiSql compSql compLcSql fields).2.2 =
        "Done — created " ++
          toString ((fields.map
            (fun f => (run_field exec kpiSql compSql compLcSql f).2)).sum) ++
          " employer tables." := by
      rw [employer_batch, hfold]
      simp
    rw [hmsg, hcount]
  · intro name sql msg hmsgerr
    simp [attempt_table, hmsgerr]

/-- Witness for C3: an oracle that always fails with "permission denied"
lets the batch record the failure with the table name and the message. -/
theorem batch_continues_and_counts_witness :
    ((fun _ : String => (Except.error "permission denied" : Except String Unit))
      ("CREATE OR REPLACE TABLE " ++ "KPI_EMPLOYERS_X" ++ " AS\n" ++ "SELECT 1") =
        Except.error "permission denied") ∧
    attempt_table (fun _ => Except.error "permission denied")
      "KPI_EMPLOYERS_X" "SELECT 1" =
      (LogEntry.err "KPI_EMPLOYERS_X" "permission denied", 0) :=
  ⟨rfl,
    (batch_continues_and_counts (fun _ => Except.error "permission denied")
      (fun _ => "SELECT 1") (fun _ => "SELECT 1") (fun _ => "SELECT 1")
      ["BGI_COMPANY_NAME"]).2.2.2
      "KPI_EMPLOYERS_X" "SELECT 1" "permission denied" rfl⟩

/-- C4: compute_percentages is total and pointwise equal to count divided by
the column sum, with every percentage 0 when the column sum is zero. -/
theorem percentages_total :
    ∀ (cols : List (List ℚ)) (j i : Nat),
      (compute_percentages cols).length = cols.length ∧
      ((compute_percentages cols).getD j []).length = (cols.getD j []).length ∧
      ((compute_percentages cols).getD j []).getD i 0 =
        (if (cols.getD j []).sum = 0 then 0
         else (cols.getD j []).getD i 0 / (cols.getD j []).sum) := by
  intro cols j i
  have h0 : pct_column [] = [] := by simp [pct_column]
  have hmapD : (compute_percentages cols).getD j [] = pct_column (cols.getD j []) := by
    calc (cols.map pct_column).getD j []
        = (cols.map pct_column).getD j (pct_column []) := by rw [h0]
      _ = pct_column (cols.getD j []) := getD_map_comm pct_column cols j []
  refine ⟨by simp [compute_percentages], ?_, ?_⟩
  · rw [hmapD, pct_column]
    by_cases h : (cols.getD j []).sum = 0
    · rw [if_neg (not_not_intro h)]
      exact List.length_map _ _
    · rw [if_pos h]
      exact List.length_map _ _
  · rw [hmapD]
    by_cases h : (cols.getD j []).sum = 0
    · rw [if_pos h]
      have hz : pct_column (cols.getD j []) =
          (cols.getD j []).map (fun _ => (0 : ℚ)) := by
        rw [pct_column, if_neg (not_not_intro h)]
      rw [hz]
      exact getD_map_comm (fun _ => (0 : ℚ)) (cols.getD j []) i 0
    · rw [if_neg h]
      have hnz : pct_column (cols.getD j []) =
          (cols.getD j []).map (fun c => c / (cols.getD j []).sum) := by
        rw [pct_column, if_pos h]
      rw [hnz]
      have hd : (0 : ℚ) = 0 / (cols.getD j []).sum := by simp
      calc ((cols.getD j []).map (fun c => c / (cols.getD j []).sum)).getD i 0
          = ((cols.getD j []).map (fun c => c / (cols.getD j []).sum)).getD i
              (0 / (cols.getD j []).sum) := by rw [← hd]
        _ = (cols.getD j []).getD i 0 / (cols.getD j []).sum :=
            getD_map_comm (fun c => c / (cols.getD j []).sum) (cols.getD j []) i 0

/-- C5: whenever a version count column has non-zero sum, its derived
percentages sum to exactly 1 across all rows. -/
theorem percentages_sum_one :
    ∀ (cols : List (List ℚ)) (j : Nat),
      (cols.getD j []).sum ≠ 0 →
      ((compute_percentages cols).getD j []).sum = 1 := by
  intro cols j h
  have h0 : pct_column [] = [] := by simp [pct_column]
  have hmapD : (compute_percentages cols).getD j [] = pct_column (cols.getD j []) := by
    calc (cols.map pct_column).getD j []
        = (cols.map pct_column).getD j (pct_column []) := by rw [h0]
      _ = pct_column (cols.getD j []) := getD_map_comm pct_column cols j []
  rw [hmapD, pct_column, if_pos h, sum_map_div, div_self h]

/-- Witness for C5: the column [1, 3] has sum 4 and its percentages
[1/4, 3/4] sum to 1. -/
theorem percentages_sum_one_witness :
    (([[(1 : ℚ), 3]].getD 0 []).sum ≠ 0) ∧
    ((compute_percentages [[(1 : ℚ), 3]]).getD 0 []).sum = 1 :=
  ⟨by norm_num, percentages_sum_one [[(1 : ℚ), 3]] 0 (by norm_num)⟩

/-- Field value of the C6 scenario, spelled without a source-level
apostrophe character. -/
def bachelors_degree : String :=
  "Bachelor" ++ String.mk [Char.ofNat 39] ++ "s Degree"

/-- C6: the largest-change ranking keeps only rows with a defined
pct_change, is sorted descending by its absolute value, has at most n rows,
and on the two-row scenario it drops the zero-base Certificate row and ranks
the first row at pct_change 0.20. -/
theorem rank_by_abs_change_spec :
    (∀ (rows : List CompRow) (n : Nat),
      (rank_by_abs_change rows n).length ≤ n ∧
      (∀ x, x ∈ rank_by_abs_change rows n → derive_pct_change x.1 = some x.2) ∧
      List.Sorted (fun a b : CompRow × ℚ => |b.2| ≤ |a.2|)
        (rank_by_abs_change rows n)) ∧
    rank_by_abs_change
      [⟨some bachelors_degree, 100, 120⟩, ⟨some "Certificate", 0, 10⟩] 20 =
      [(⟨some bachelors_degree, 100, 120⟩, 1 / 5)] := by
  constructor
  · intro rows n
    refine ⟨List.length_take_le n _, ?_, ?_⟩
    · intro x hx
      have hx' := List.mem_of_mem_take hx
      rw [mem_sort_desc] at hx'
      rw [List.mem_filterMap] at hx'
      obtain ⟨r, _, heq⟩ := hx'
      rw [Option.map_eq_some'] at heq
      obtain ⟨p, hp, hxp⟩ := heq
      rw [← hxp]
      exact hp
    · rw [rank_by_abs_change]
      have hs := sorted_sort_desc (fun x : CompRow × ℚ => |x.2|)
        (rows.filterMap (fun r => (derive_pct_change r).map (fun p => (r, p))))
      exact List.Pairwise.sublist (List.take_sublist _ _) hs
  · norm_num [rank_by_abs_change, sort_desc, insert_desc, derive_pct_change,
      compute_pct_change]

/-- Witness for C6: on the concrete scenario the single ranked row is seen
to carry its defined pct_change. -/
theorem rank_by_abs_change_spec_witness :
    ((⟨some bachelors_degree, 100, 120⟩, (1 : ℚ) / 5) ∈
      rank_by_abs_change
        [⟨some bachelors_degree, 100, 120⟩, ⟨some "Certificate", 0, 10⟩] 20) ∧
    derive_pct_change (⟨some bachelors_degree, 100, 120⟩ : CompRow) =
      some ((1 : ℚ) / 5) :=
  ⟨by norm_num [rank_by_abs_change, sort_desc, insert_desc, derive_pct_change,
      compute_pct_change],
    (rank_by_abs_change_spec.1
      [⟨some bachelors_degree, 100, 120⟩, ⟨some "Certificate", 0, 10⟩] 20).2.1
      (⟨some bachelors_degree, 100, 120⟩, (1 : ℚ) / 5)
      (by norm_num [rank_by_abs_change, sort_desc, insert_desc,
        derive_pct_change, compute_pct_change])⟩

/-- C8: the wide-to-long reshape emits exactly input-rows × version-columns
output rows, one per (input row, version column) pair, carrying that row's
prepared category value, the column name as version label, and the metric
value. -/
theorem reshape_preserves_counts :
    ∀ (fr : Frame) (vcols : List String),
      (∀ c ∈ vcols, (getCol fr c).length = fr.field_value.length) →
      (melt_frame fr vcols).length = fr.field_value.length * vcols.length ∧
      (∀ c, c ∈ vcols → ∀ i, i < fr.field_value.length →
        (⟨_prepare (fr.field_value.getD i none), c,
          (getCol fr c).getD i 0⟩ : LongRow) ∈ melt_frame fr vcols) := by
  intro fr vcols H
  exact ⟨melt_frame_length fr vcols H,
    fun c hc i hi => melt_frame_mem fr vcols c hc i hi (H c hc)⟩

/-- Witness for C8: a two-row, two-column frame melts to 2 × 2 rows and
contains the (row 0, first column) output row. -/
theorem reshape_preserves_counts_witness :
    (∀ c ∈ ["cnt_x", "cnt_y"],
      (getCol ⟨[some "a", none], [("cnt_x", [1, 2]), ("cnt_y", [3, 4])]⟩ c).length =
        (Frame.mk [some "a", none]
          [("cnt_x", [1, 2]), ("cnt_y", [3, 4])]).field_value.length) ∧
    ("cnt_x" ∈ ["cnt_x", "cnt_y"]) ∧
    (0 < (Frame.mk [some "a", none]
      [("cnt_x", [1, 2]), ("cnt_y", [3, 4])]).field_value.length) ∧
    (⟨"a", "cnt_x", 1⟩ : LongRow) ∈
      melt_frame ⟨[some "a", none], [("cnt_x", [1, 2]), ("cnt_y", [3, 4])]⟩
        ["cnt_x", "cnt_y"] :=
  ⟨by decide, by decide, by decide,
    (reshape_preserves_counts
      ⟨[some "a", none], [("cnt_x", [1, 2]), ("cnt_y", [3, 4])]⟩
      ["cnt_x", "cnt_y"] (by decide)).2 "cnt_x" (by decide) 0 (by decide)⟩

/-- C9: a null category value is replaced by the literal placeholder
"<NULL>" rather than dropped — the prepared column keeps its length and
contains the placeholder, and the reshaped output still has
input-rows × version-columns rows, one of which carries the placeholder. -/
theorem null_placeholder_kept :
    (∀ fv : List (Option String),
      (prepare_col fv).length = fv.length ∧
      (none ∈ fv → NULL_LABEL ∈ prepare_col fv)) ∧
    (∀ (fr : Frame) (vcols : List String),
      (∀ c ∈ vcols, (getCol fr c).length = fr.field_value.length) →
      none ∈ fr.field_value → vcols ≠ [] →
      (∃ row, row ∈ melt_frame fr vcols ∧ row.field_value = NULL_LABEL) ∧
      (melt_frame fr vcols).length = fr.field_value.length * vcols.length) := by
  constructor
  · intro fv
    refine ⟨List.length_map fv _prepare, fun hnone => ?_⟩
    rw [prepare_col, List.mem_map]
    exact ⟨none, hnone, rfl⟩
  · intro fr vcols H hnone hne
    refine ⟨?_, melt_frame_length fr vcols H⟩
    obtain ⟨i, hi, hval⟩ := List.getElem_of_mem hnone
    cases vcols with
    | nil => exact absurd rfl hne
    | cons c cs =>
      refine ⟨⟨_prepare (fr.field_value.getD i none), c,
        (getCol fr c).getD i 0⟩, ?_, ?_⟩
      · exact melt_frame_mem fr (c :: cs) c (List.mem_cons_self c cs) i hi
          (H c (List.mem_cons_self c cs))
      · show _prepare (fr.field_value.getD i none) = NULL_LABEL
        rw [List.getD_eq_getElem fr.field_value none hi, hval]
        rfl

/-- Witness for C9: a one-row frame whose field value is null melts to a row
labelled with the placeholder. -/
theorem null_placeholder_kept_witness :
    (∀ c ∈ ["cnt_x"],
      (getCol ⟨[none], [("cnt_x", [7])]⟩ c).length =
        (Frame.mk [none] [("cnt_x", [7])]).field_value.length) ∧
    ((none : Option String) ∈ (Frame.mk [none] [("cnt_x", [7])]).field_value) ∧
    (["cnt_x"] ≠ ([] : List String)) ∧
    ((∃ row, row ∈ melt_frame ⟨[none], [("cnt_x", [7])]⟩ ["cnt_x"] ∧
        row.field_value = NULL_LABEL) ∧
      (melt_frame ⟨[none], [("cnt_x", [7])]⟩ ["cnt_x"]).length =
        (Frame.mk [none] [("cnt_x", [7])]).field_value.length * ["cnt_x"].length) :=
  ⟨by decide, by decide, by decide,
    null_placeholder_kept.2 ⟨[none], [("cnt_x", [7])]⟩ ["cnt_x"]
      (by decide) (by decide) (by decide)⟩

/-- C10: the chart transforms never mutate the frame their input reference
points at — after _melt, chart_percentages, chart_counts or chart_pct_change
the input reference still holds the original frame, and running chart_counts
after chart_percentages on the same reference yields the same long frame as
running it on the untouched heap. -/
theorem charts_do_not_mutate_input :
    ∀ (h : Heap) (df : Nat) (vcols : List String),
      df < h.length →
      read (melt_prog h df vcols).1 df = read h df ∧
      read (chart_percentages_prog h df).1 df = read h df ∧
      read (chart_counts_prog h df).1 df = read h df ∧
      read (chart_pct_change_prog h df).1 df = read h df ∧
      (chart_counts_prog (chart_percentages_prog h df).1 df).2 =
        (chart_counts_prog h df).2 := by
  intro h df vcols hdf
  have hpres := (chart_percentages_prog_spec h df).1 df hdf
  refine ⟨(melt_prog_spec h df vcols).1 df hdf, hpres,
    (chart_counts_prog_spec h df).1 df hdf,
    (chart_pct_change_prog_spec h df).1 df hdf, ?_⟩
  calc (chart_counts_prog (chart_percentages_prog h df).1 df).2
      = chart_counts_frame (read (chart_percentages_prog h df).1 df) :=
        (chart_counts_prog_spec _ df).2
    _ = chart_counts_frame (read h df) := by rw [hpres]
    _ = (chart_counts_prog h df).2 := ((chart_counts_prog_spec h df).2).symm

/-- Witness for C10: a one-frame heap with the reference at index 0. -/
theorem charts_do_not_mutate_input_witness :
    (0 < ([⟨[some "a"], [("cnt_x", [5])]⟩] : Heap).length) ∧
    read (melt_prog [⟨[some "a"], [("cnt_x", [5])]⟩] 0 ["cnt_x"]).1 0 =
      read [⟨[some "a"], [("cnt_x", [5])]⟩] 0 :=
  ⟨by decide,
    (charts_do_not_mutate_input [⟨[some "a"], [("cnt_x", [5])]⟩] 0 ["cnt_x"]
      (by decide)).1⟩

end PDLComparison
